import Mathlib

/-!
Verification of the table-tennis league core (rankings app): the ELO rating
update (`rankings/utils.py`, `elo`), the round-robin schedule generator
(`generate_tournament_schedule`), the elimination-bracket builder
(`generate_elimination_games` / `build_games_from_schedule`) and the
tournament progression state machine (`rankings/views.py`,
`FinishGameView.form_valid` / `update_tournament`,
`StartTournamentView.get`).

Python floats are modelled by real numbers; `float('{:.2f}'.format(x))` is
modelled as correct rounding of the real value to 2 decimal places with
round-half-to-even tie-breaking (CPython formats the double with
round-half-even); none of the statements proved below sit on a tie
boundary.  Machine integers of the ORM (`PositiveIntegerField`) are `Nat`.
-/

/-! ## RatingEngine: `elo` from `rankings/utils.py` lines 6-33 -/

/-- Round-half-even of a real number to an integer (the rounding used by
Python float formatting). -/
noncomputable def roundHalfEven (y : ℝ) : ℤ :=
  if y - ⌊y⌋ < 1 / 2 then ⌊y⌋
  else if 1 / 2 < y - ⌊y⌋ then ⌊y⌋ + 1
  else if Even ⌊y⌋ then ⌊y⌋ else ⌊y⌋ + 1

/-- `float('{result:.2f}'.format(result=x))`: round to 2 decimal places. -/
noncomputable def round2 (x : ℝ) : ℝ :=
  (roundHalfEven (x * 100) : ℝ) / 100

/-- `elo(winner_rank, loser_rank, weighting)` from `rankings/utils.py`
(also duplicated verbatim in `rankings/elo.py`).  `10 ** (r / 400)` is real
exponentiation. -/
noncomputable def elo (winner_rank loser_rank weighting : ℝ) : ℝ × ℝ :=
  let winner_rank_transformed : ℝ := (10 : ℝ) ^ (winner_rank / 400)
  let opponent_rank_transformed : ℝ := (10 : ℝ) ^ (loser_rank / 400)
  let transformed_sum := winner_rank_transformed + opponent_rank_transformed
  let winner_score := winner_rank_transformed / transformed_sum
  let loser_score := opponent_rank_transformed / transformed_sum
  let winner_rank1 := winner_rank + weighting * (1 - winner_score)
  let loser_rank1 := loser_rank - weighting * loser_score
  let winner_rank2 := if winner_rank1 < 100 then 100 else winner_rank1
  let loser_rank2 := if loser_rank1 < 100 then 100 else loser_rank1
  (round2 winner_rank2, round2 loser_rank2)

/-- The ELO update as worded by the specification (section 4.1): expected
score for a side with rating `r` is `10^(r/400) / (10^(w/400) + 10^(l/400))`;
the winner moves up by `weighting * (1 - expected_winner)`, the loser moves
down by `weighting * expected_loser`; both results are floored at 100 and
rounded to 2 decimal places. -/
noncomputable def apply_result_spec (w l k : ℝ) : ℝ × ℝ :=
  let expected : ℝ → ℝ := fun r =>
    (10 : ℝ) ^ (r / 400) / ((10 : ℝ) ^ (w / 400) + (10 : ℝ) ^ (l / 400))
  let new_w := w + k * (1 - expected w)
  let new_l := l - k * expected l
  (round2 (if new_w < 100 then 100 else new_w),
   round2 (if new_l < 100 then 100 else new_l))

lemma roundHalfEven_ge_int {y : ℝ} {z : ℤ} (h : (z : ℝ) ≤ y) :
    z ≤ roundHalfEven y := by
  have hz : z ≤ ⌊y⌋ := Int.le_floor.mpr h
  unfold roundHalfEven
  split
  · exact hz
  · split
    · omega
    · split <;> omega

lemma roundHalfEven_le_int {y : ℝ} {z : ℤ} (h : y ≤ (z : ℝ)) :
    roundHalfEven y ≤ z := by
  rcases eq_or_lt_of_le h with h' | h'
  · subst h'
    unfold roundHalfEven
    rw [Int.floor_intCast]
    have : (z : ℝ) - z = 0 := by ring
    rw [this]
    norm_num
  · have hz : ⌊y⌋ < z := Int.floor_lt.mpr h'
    unfold roundHalfEven
    split
    · omega
    · split
      · omega
      · split <;> omega

lemma roundHalfEven_intCast (z : ℤ) : roundHalfEven (z : ℝ) = z :=
  le_antisymm (roundHalfEven_le_int le_rfl) (roundHalfEven_ge_int le_rfl)

lemma round2_ge {x : ℝ} {z : ℤ} (h : (z : ℝ) / 100 ≤ x) :
    (z : ℝ) / 100 ≤ round2 x := by
  have h100 : (z : ℝ) ≤ x * 100 := by linarith
  have := roundHalfEven_ge_int h100
  unfold round2
  have : (z : ℝ) ≤ (roundHalfEven (x * 100) : ℝ) := by exact_mod_cast this
  linarith

lemma round2_le {x : ℝ} {z : ℤ} (h : x ≤ (z : ℝ) / 100) :
    round2 x ≤ (z : ℝ) / 100 := by
  have h100 : x * 100 ≤ (z : ℝ) := by linarith
  have := roundHalfEven_le_int h100
  unfold round2
  have : ((roundHalfEven (x * 100) : ℤ) : ℝ) ≤ (z : ℝ) := by exact_mod_cast this
  linarith

lemma round2_intMul {z : ℤ} : round2 ((z : ℝ) / 100) = (z : ℝ) / 100 :=
  le_antisymm (round2_le le_rfl) (round2_ge le_rfl)

/-! ## ScheduleGenerator: `generate_tournament_schedule`, utils.py 36-63 -/

/-- `competing_players.insert(1, competing_players.pop())`: remove the last
element and reinsert it at index 1 (Python `list.insert` clamps the index,
so a singleton maps to itself; `pop` on `[]` would raise in Python — the
callers never pass an empty list in the verified scenarios). -/
def rotateOnce {α : Type _} (l : List α) : List α :=
  match l.getLast? with
  | none => l
  | some x => l.dropLast.take 1 ++ x :: l.dropLast.drop 1

/-- One iteration of the loop body of `generate_tournament_schedule`: the
pairs appended for round `i` from the current player list. -/
def roundPairs {α : Type _} (i : Nat) (l : List α) : List (α × α) :=
  let mid := l.length / 2
  let first_half := l.take mid
  let second_half := (l.drop mid).reverse
  if i % 2 = 1 then first_half.zip second_half
  else second_half.zip first_half

/-- The loop of `generate_tournament_schedule` with loop counter `i` and
`r` rounds still to produce. -/
def schedFrom {α : Type _} (i : Nat) (l : List α) : Nat → List (α × α)
  | 0 => []
  | r + 1 => roundPairs i l ++ schedFrom (i + 1) (rotateOnce l) r

/-- `generate_tournament_schedule(competing_players, rounds)`. -/
def generate_tournament_schedule {α : Type _} (l : List α) (rounds : Nat) :
    List (α × α) :=
  schedFrom 0 l rounds

lemma rotateOnce_concat {α : Type _} (l : List α) (b : α) :
    rotateOnce (l ++ [b]) = l.take 1 ++ b :: l.drop 1 := by
  unfold rotateOnce
  rw [List.getLast?_concat, List.dropLast_concat]

lemma length_rotateOnce {α : Type _} (l : List α) :
    (rotateOnce l).length = l.length := by
  induction l using List.reverseRecOn with
  | nil => rfl
  | append_singleton l b _ =>
    rw [rotateOnce_concat]
    simp
    omega

lemma length_roundPairs {α : Type _} (i : Nat) (l : List α) :
    (roundPairs i l).length = l.length / 2 := by
  unfold roundPairs
  have hmid : l.length / 2 ≤ l.length := Nat.div_le_self _ _
  split <;> simp <;> omega

lemma length_schedFrom {α : Type _} (r : Nat) :
    ∀ (i : Nat) (l : List α),
      (schedFrom i l r).length = r * (l.length / 2) := by
  induction r with
  | zero => intro i l; simp [schedFrom]
  | succ r ih =>
    intro i l
    rw [schedFrom, List.length_append, length_roundPairs, ih,
      length_rotateOnce, Nat.succ_mul, Nat.add_comm]

lemma length_generate {α : Type _} (l : List α) (rounds : Nat) :
    (generate_tournament_schedule l rounds).length = rounds * (l.length / 2) :=
  length_schedFrom rounds 0 l

/-! ## Data model: `rankings/models.py`

Players are identified by `Nat`.  A `Game`'s players are stored as the
ordered list in which they were added (`game.players.add(player)`); for
elimination games the scheduler works with winners pulled from a nullable
foreign key, so participant slots carry `Option Nat`. -/

abbrev PId := Nat

/-- `Game` model (models.py 12-54): `active` defaults to `True`, `winner`
is a nullable foreign key, scores are nullable integers. -/
structure Game where
  players : List (Option PId)
  active : Bool
  tournament_game : Bool
  elimination_game : Bool
  winner : Option PId
  home_score : Option Int
  away_score : Option Int
deriving DecidableEq, Repr

/-- `Tournament` model (models.py 131-171): configuration plus mutable
progress state, and the M2M collections of games and players. -/
structure Tournament where
  active : Bool
  has_round_robin : Bool
  no_round_robin_rounds : Nat
  round_robin_finished : Bool
  has_elimination : Bool
  no_players_for_elimination_rounds : Nat
  games : List Game
  players : List PId
deriving DecidableEq, Repr

/-! ## BracketBuilder: `build_games_from_schedule` and
`generate_elimination_games`, utils.py 66-111 -/

/-- `build_games_from_schedule(tournament, schedule, elimination)`: one new
`Game(tournament_game=True)` per scheduled pair, with the pair's two
entries added to `players` in order, `elimination_game` set when requested,
and the game added to the tournament. -/
def build_games_from_schedule (t : Tournament)
    (schedule : List (Option PId × Option PId)) (elimination : Bool) :
    Tournament :=
  { t with games := t.games ++ schedule.map (fun p =>
      { players := [p.1, p.2]
        active := true
        tournament_game := true
        elimination_game := elimination
        winner := none
        home_score := none
        away_score := none }) }

/-- `collections.Counter(...)` applied to a list: association list of
(value, multiplicity), keyed in first-insertion order (Python dicts keep
insertion order). -/
def counterOf (ws : List (Option PId)) : List (Option PId × Nat) :=
  ws.foldl (fun acc w =>
    if acc.any (fun q => q.1 = w) then
      acc.map (fun q => if q.1 = w then (q.1, q.2 + 1) else q)
    else acc ++ [(w, 1)]) []

/-- Stable insertion (descending by count) used to model
`Counter.most_common(n)`, which is documented as equivalent to
`sorted(counter.items(), key=count, reverse=True)[:n]` (a stable sort, so
ties keep insertion order). -/
def insertByCount (x : Option PId × Nat) :
    List (Option PId × Nat) → List (Option PId × Nat)
  | [] => [x]
  | y :: ys => if y.2 ≤ x.2 then x :: y :: ys else y :: insertByCount x ys

/-- `Counter(ws).most_common(n)`, keeping only the values. -/
def most_common (ws : List (Option PId)) (n : Nat) : List (Option PId) :=
  (((counterOf ws).foldr insertByCount []).take n).map (fun q => q.1)

/-- `generate_elimination_games(tournament, games, no_players)`
(utils.py 94-110): count wins per participant over `games`, take the
`no_players` most common winners, schedule one round over them and add the
resulting games as elimination games. -/
def generate_elimination_games (t : Tournament) (games : List Game)
    (no_players : Nat) : Tournament :=
  let finalists := most_common (games.map (fun g => g.winner)) no_players
  let schedule := generate_tournament_schedule finalists 1
  build_games_from_schedule t schedule true

/-! ## TournamentStateMachine: `FinishGameView` (views.py 184-348) and
`StartTournamentView` (views.py 508-537) -/

/-- `FinishGameView.update_tournament` (views.py 282-348).  Invoked while
the just-completed game is still marked active, so the `<= 1` test counts
it.  Python truthiness of `games.filter(elimination_game=True)` is
non-emptiness of that filter. -/
def update_tournament (t : Tournament) : Tournament :=
  let active_games := t.games.filter (fun g => g.active)
  if active_games.length ≤ 1 then
    let t1 := if ¬ t.round_robin_finished then
        { t with round_robin_finished := true } else t
    let t2 :=
      if t1.has_elimination ∧ t1.round_robin_finished then
        let no_players := t1.no_players_for_elimination_rounds
        let t' :=
          if (t1.games.filter (fun g => g.elimination_game)).isEmpty then
            generate_elimination_games t1 t1.games no_players
          else if 2 ≤ no_players then
            generate_elimination_games t1
              (t1.games.filter (fun g => g.elimination_game)) no_players
          else t1
        if 2 ≤ no_players then
          { t' with no_players_for_elimination_rounds := no_players - 2 }
        else t'
      else t1
    if t2.round_robin_finished ∧ t2.no_players_for_elimination_rounds = 0 then
      { t2 with active := false }
    else t2
  else t

/-- Ratings side of the database: each player's current `ranking`
(models.py `Player.ranking`, default 1000) and the `RankChange` records
(player, before, after). -/
structure RatingsDb where
  ratings : PId → ℝ
  rankChanges : List (PId × ℝ × ℝ)

/-- `FinishGameView.update_player_rankings` (views.py 250-280) combined
with `Player.update_rankings` (models.py 101-117): `player_1` and
`player_2` are `game.players.first()` and `game.players.last()`; the loser
is `player_1` unless `player_1` is the winner; `elo` produces the new
ratings (the winner's assignment happens first, so on the degenerate
`winner = loser` path the loser assignment wins); a `RankChange` with the
before/after ratings is recorded for both players.  A `None` winner or a
missing player would raise `AttributeError` in Python; modelled as a no-op,
and never exercised by the verified statements. -/
noncomputable def update_player_rankings (K : ℝ) (db : RatingsDb)
    (g : Game) : RatingsDb :=
  match g.players.head?, g.players.getLast?, g.winner with
  | some (some p1), some (some p2), some w =>
    let loser := if p1 ≠ w then p1 else p2
    let res := elo (db.ratings w) (db.ratings loser) K
    let newRatings : PId → ℝ := fun p =>
      if p = loser then res.2 else if p = w then res.1 else db.ratings p
    { ratings := newRatings
      rankChanges := db.rankChanges ++
        [(p1, db.ratings p1, newRatings p1), (p2, db.ratings p2, newRatings p2)] }
  | _, _, _ => db

/-- `FinishGameView.form_valid` (views.py 205-229) for the game stored at
index `idx` of the surrounding game collection (`t.games`): `form.save()`
first writes the submitted `winner`, `home_score` and `away_score`; only
when the game is still active does the view update the player rankings (for
a non-tournament game) or run the tournament state machine (for a
tournament game, with the just-saved game still active in `t.games`), and
finally mark the game inactive. -/
noncomputable def form_valid_step (K : ℝ) (db : RatingsDb) (t : Tournament)
    (idx : Nat) (w : Option PId) (hs as_ : Option Int) :
    RatingsDb × Tournament :=
  match t.games.get? idx with
  | none => (db, t)
  | some g =>
    let g1 := { g with winner := w, home_score := hs, away_score := as_ }
    let t1 := { t with games := t.games.set idx g1 }
    if g1.active then
      if g1.tournament_game then
        let t2 := update_tournament t1
        (db, { t2 with games := t2.games.set idx { g1 with active := false } })
      else
        (update_player_rankings K db g1,
         { t1 with games := t1.games.set idx { g1 with active := false } })
    else (db, t1)

/-- `StartTournamentView.get` (views.py 508-537): for a round-robin
tournament with an odd number of players only an error message is emitted;
otherwise the round-robin schedule over the player list is generated and
built into games. -/
def startTournament (t : Tournament) : Tournament :=
  if t.has_round_robin then
    if t.players.length % 2 = 1 then t
    else
      build_games_from_schedule t
        (generate_tournament_schedule (t.players.map some)
          t.no_round_robin_rounds) false
  else t

/-! ## Concrete states used by the closed statements -/

/-- A ratings database with every ranking at the default 1000 and no
`RankChange` rows. -/
noncomputable def freshDb : RatingsDb :=
  { ratings := fun _ => 1000, rankChanges := [] }

/-- A completed (inactive) non-tournament game between players 1 and 2,
won by player 1 with scores 21:15. -/
def finishedGame : Game :=
  { players := [some 1, some 2], active := false, tournament_game := false,
    elimination_game := false, winner := some 1, home_score := some 21,
    away_score := some 15 }

/-- A tournament collection holding just `finishedGame`. -/
def finishedGameTournament : Tournament :=
  { active := true, has_round_robin := false, no_round_robin_rounds := 0,
    round_robin_finished := false, has_elimination := false,
    no_players_for_elimination_rounds := 0, games := [finishedGame],
    players := [1, 2] }

lemma games_build_games (t : Tournament)
    (schedule : List (Option PId × Option PId)) (e : Bool) :
    (build_games_from_schedule t schedule e).games.length =
      t.games.length + schedule.length := by
  simp [build_games_from_schedule]

/-- C5: the code's actual output on `[A,B,C,D]` with one round, instantiated
at `A,B,C,D := 0,1,2,3`: the even-round branch zips the reversed second half
first, so the schedule is `[(D,A),(C,B)]`. -/
theorem claim_C5_amended :
    generate_tournament_schedule [0, 1, 2, 3] 1 = [(3, 0), (2, 1)] := by
  decide

/-- C5 counterexample: the first pair returned for `[A,B,C,D] = [0,1,2,3]`
is `(3,0)`, a pair consisting of A and D, not a pair consisting of B and C
as the claim states. -/
theorem claim_C5_counterexample :
    (generate_tournament_schedule [0, 1, 2, 3] 1).head? = some (3, 0) ∧
    ¬ ((3, 0) = ((1 : Nat), (2 : Nat)) ∨ ((3 : Nat), (0 : Nat)) = (2, 1)) := by
  decide

/-- C10: for an odd participant list of length `n ≥ 3` and `r ≥ 1` rounds
the generator raises no error and returns exactly `r * (n / 2)` pairs, with
`2 * (n / 2) + 1 = n`, so one participant is left unpaired in each round;
likewise an odd elimination finalist list yields a bracket round of
`len / 2` games rather than a validation failure. -/
theorem claim_C10 :
    (∀ (α : Type) (l : List α) (r : Nat), l.length % 2 = 1 →
      3 ≤ l.length → 1 ≤ r →
      (generate_tournament_schedule l r).length = r * (l.length / 2) ∧
      2 * (l.length / 2) + 1 = l.length) ∧
    (∀ (t : Tournament) (games : List Game) (n : Nat),
      (most_common (games.map (fun g => g.winner)) n).length % 2 = 1 →
      3 ≤ (most_common (games.map (fun g => g.winner)) n).length →
      (generate_elimination_games t games n).games.length =
        t.games.length +
          (most_common (games.map (fun g => g.winner)) n).length / 2) := by
  constructor
  · intro α l r hodd _ _
    refine ⟨length_generate l r, ?_⟩
    omega
  · intro t games n _ _
    unfold generate_elimination_games
    rw [games_build_games, length_generate]
    simp

/-- C10 witness: a 3-player list with one round gives 1 pair, and an
elimination call whose finalist list is `[some 2, some 1, some 0]` (odd)
adds exactly one game. -/
theorem claim_C10_witness :
    (([0, 1, 2] : List Nat).length % 2 = 1 ∧ 3 ≤ ([0, 1, 2] : List Nat).length ∧
      1 ≤ 1 ∧
      (generate_tournament_schedule ([0, 1, 2] : List Nat) 1).length =
        1 * (([0, 1, 2] : List Nat).length / 2) ∧
      2 * (([0, 1, 2] : List Nat).length / 2) + 1 =
        ([0, 1, 2] : List Nat).length) ∧
    ((most_common (([finishedGame, { finishedGame with winner := some 2 },
        { finishedGame with winner := some 3 }] : List Game).map
          (fun g => g.winner)) 3).length % 2 = 1 ∧
      (generate_elimination_games finishedGameTournament
          [finishedGame, { finishedGame with winner := some 2 },
            { finishedGame with winner := some 3 }] 3).games.length =
        finishedGameTournament.games.length +
          (most_common (([finishedGame, { finishedGame with winner := some 2 },
            { finishedGame with winner := some 3 }] : List Game).map
              (fun g => g.winner)) 3).length / 2) := by
  refine ⟨⟨by decide, by decide, le_rfl, ?_, by decide⟩, ⟨by decide, ?_⟩⟩
  · exact ((claim_C10.1 Nat [0, 1, 2] 1 (by decide) (by decide) le_rfl).1)
  · exact claim_C10.2 finishedGameTournament
      [finishedGame, { finishedGame with winner := some 2 },
        { finishedGame with winner := some 3 }] 3 (by decide) (by decide)

/-- An active non-tournament game between players 1 and 2, not yet decided. -/
def activeGame : Game :=
  { players := [some 1, some 2], active := true, tournament_game := false,
    elimination_game := false, winner := none, home_score := none,
    away_score := none }

/-- A game collection holding just `activeGame`. -/
def activeGameTournament : Tournament :=
  { active := true, has_round_robin := false, no_round_robin_rounds := 0,
    round_robin_finished := false, has_elimination := false,
    no_players_for_elimination_rounds := 0, games := [activeGame],
    players := [1, 2] }

/-- C6 (amended): completing an already-completed match is not rejected;
it performs no rating update, no `RankChange`, no tournament-machine run,
and the game stays inactive, but the submitted winner and scores are saved
over the previous values. -/
theorem claim_C6_amended (K : ℝ) (db : RatingsDb) (t : Tournament)
    (idx : Nat) (w : Option PId) (hs a : Option Int) (g : Game)
    (hget : t.games.get? idx = some g) (hact : g.active = false) :
    form_valid_step K db t idx w hs a =
      (db, { t with games := t.games.set idx ({ g with winner := w, home_score := hs, away_score := a }) }) := by
  unfold form_valid_step
  rw [hget]
  simp [hact]

/-- C6 counterexample: `finishedGame` is already completed with winner 1,
yet submitting the finish form again with winner 2 changes the stored
winner — the match state is not left unchanged, refuting the claim. -/
theorem claim_C6_counterexample :
    finishedGame.active = false ∧
    finishedGame.winner = some 1 ∧
    ((form_valid_step 32 freshDb finishedGameTournament 0 (some 2) (some 5)
        (some 7)).2.games.get? 0).map (fun g => g.winner) = some (some 2) := by
  refine ⟨rfl, rfl, ?_⟩
  rw [claim_C6_amended 32 freshDb finishedGameTournament 0 (some 2) (some 5)
    (some 7) finishedGame rfl rfl]
  rfl

/-- C6 witness: the amended statement applied to `finishedGame`. -/
theorem claim_C6_witness :
    finishedGameTournament.games.get? 0 = some finishedGame ∧
    finishedGame.active = false ∧
    form_valid_step 32 freshDb finishedGameTournament 0 (some 2) (some 5)
        (some 7) =
      (freshDb, { finishedGameTournament with games := finishedGameTournament.games.set 0 ({ finishedGame with winner := some 2, home_score := some 5, away_score := some 7 }) }) :=
  ⟨rfl, rfl, claim_C6_amended 32 freshDb finishedGameTournament 0 (some 2)
    (some 5) (some 7) finishedGame rfl rfl⟩

/-- C9: completing an active match updates ratings via the rating engine
exactly when it is not a tournament match: for a tournament match the
ratings function and the `RankChange` list are untouched, for a
non-tournament match the ratings database is the result of
`update_player_rankings` (the ELO engine) on the saved game. -/
theorem claim_C9 (K : ℝ) (db : RatingsDb) (t : Tournament) (idx : Nat)
    (w : Option PId) (hs a : Option Int) (g : Game)
    (hget : t.games.get? idx = some g) (hact : g.active = true) :
    (g.tournament_game = true →
      (form_valid_step K db t idx w hs a).1.ratings = db.ratings ∧
      (form_valid_step K db t idx w hs a).1.rankChanges = db.rankChanges) ∧
    (g.tournament_game = false →
      (form_valid_step K db t idx w hs a).1 =
        update_player_rankings K db ({ g with winner := w, home_score := hs, away_score := a })) := by
  unfold form_valid_step
  rw [hget]
  constructor
  · intro htg
    simp [hact, htg]
  · intro htg
    simp [hact, htg]

/-- C9 witness: the dispatch statement applied to `activeGame`, a
non-tournament match. -/
theorem claim_C9_witness :
    activeGameTournament.games.get? 0 = some activeGame ∧
    activeGame.active = true ∧
    activeGame.tournament_game = false ∧
    ((activeGame.tournament_game = false →
      (form_valid_step 32 freshDb activeGameTournament 0 (some 1) none
          none).1 =
        update_player_rankings 32 freshDb ({ activeGame with winner := some 1, home_score := none, away_score := none }))) :=
  ⟨rfl, rfl, rfl,
    (claim_C9 32 freshDb activeGameTournament 0 (some 1) none none activeGame
      rfl rfl).2⟩

/-! ## Tournament lifecycle scenarios (claims C1 and C2) -/

lemma update_tournament_no_players (t : Tournament) :
    (update_tournament t).no_players_for_elimination_rounds =
      t.no_players_for_elimination_rounds ∨
    ((update_tournament t).no_players_for_elimination_rounds + 2 =
      t.no_players_for_elimination_rounds) := by
  unfold update_tournament generate_elimination_games build_games_from_schedule
  dsimp only
  split_ifs <;> simp_all <;> omega

lemma update_tournament_marks_inactive (t : Tournament)
    (h1 : (t.games.filter (fun g => g.active)).length ≤ 1)
    (h2 : t.round_robin_finished = true)
    (h3 : t.no_players_for_elimination_rounds = 0)
    (h4 : t.has_elimination = false ∨
      (t.games.filter (fun g => g.elimination_game)).isEmpty = false) :
    (update_tournament t).active = false := by
  unfold update_tournament generate_elimination_games build_games_from_schedule
  dsimp only
  split_ifs <;> simp_all

/-- One finish-game invocation viewed on the tournament component: submit
winner `w` for the game at index `idx` (scores left empty). -/
noncomputable def tournamentStep (t : Tournament) (idx : Nat)
    (w : Option PId) : Tournament :=
  (form_valid_step 32 freshDb t idx w none none).2

/-- A round-robin game of the 4-player tournament between `a` and `b`. -/
def rrGame (a b : PId) (w : Option PId) (act : Bool) : Game :=
  { players := [some a, some b], active := act, tournament_game := true,
    elimination_game := false, winner := w, home_score := none,
    away_score := none }

/-- C2 scenario start: a 4-participant tournament, round robin over
3 rounds, elimination disabled (field size 0). -/
def rrOnlyTournament : Tournament :=
  { active := true, has_round_robin := true, no_round_robin_rounds := 3,
    round_robin_finished := false, has_elimination := false,
    no_players_for_elimination_rounds := 0, games := [],
    players := [0, 1, 2, 3] }

noncomputable def rrS0 : Tournament := startTournament rrOnlyTournament

noncomputable def rrS1 : Tournament := tournamentStep rrS0 0 (some 3)

noncomputable def rrS2 : Tournament := tournamentStep rrS1 1 (some 2)

noncomputable def rrS3 : Tournament := tournamentStep rrS2 2 (some 0)

noncomputable def rrS4 : Tournament := tournamentStep rrS3 3 (some 3)

noncomputable def rrS5 : Tournament := tournamentStep rrS4 4 (some 1)

noncomputable def rrS6 : Tournament := tournamentStep rrS5 5 (some 3)

/-- C2: starting the 4-player round-robin-only tournament creates 6 games;
the tournament stays active through the first five completions (and the
round-robin phase is not even marked finished before the last one); at the
sixth completion the `<= 1 active games` check still counts the
just-completed game (it is the single active game of the pre-state), and
exactly that invocation marks the tournament inactive. -/
theorem claim_C2 :
    rrS0.games.length = 6 ∧
    rrS0.games.all (fun g => g.tournament_game && g.active) = true ∧
    rrS1.active = true ∧ rrS2.active = true ∧ rrS3.active = true ∧
    rrS4.active = true ∧ rrS5.active = true ∧
    rrS5.round_robin_finished = false ∧
    (rrS5.games.filter (fun g => g.active)).length = 1 ∧
    (rrS5.games.get? 5).map (fun g => g.active) = some true ∧
    rrS6.active = false ∧ rrS6.round_robin_finished = true := by
  decide

/-- C1 scenario start: round robin finished, elimination field size 4; the
six round-robin games carry the winners 0,1,2,3,0 with the last game
(players 3 and 2) still active and about to be completed with winner 2, so
the win counts are 0 ↦ 2, 1 ↦ 1, 2 ↦ 2, 3 ↦ 1. -/
def elimStart : Tournament :=
  { active := true, has_round_robin := true, no_round_robin_rounds := 3,
    round_robin_finished := true, has_elimination := true,
    no_players_for_elimination_rounds := 4,
    games := [rrGame 3 0 (some 0) false, rrGame 2 1 (some 1) false,
              rrGame 0 2 (some 2) false, rrGame 3 1 (some 3) false,
              rrGame 1 0 (some 0) false, rrGame 3 2 none true],
    players := [0, 1, 2, 3] }

noncomputable def elimS1 : Tournament := tournamentStep elimStart 5 (some 2)

noncomputable def elimS2 : Tournament := tournamentStep elimS1 6 (some 3)

noncomputable def elimS3 : Tournament := tournamentStep elimS2 7 (some 1)

noncomputable def elimS4 : Tournament := tournamentStep elimS3 8 (some 3)

/-- C1: across all states the elimination counter never increases and
changes only by exactly 2; an invocation acting on a state with round robin
finished and counter 0 (elimination disabled, or its bracket already built)
marks the tournament inactive.  In the concrete scenario: from round robin
finished with field size 4, one invocation builds one bracket round of two
elimination matches seeded by the top-4 win counts (0 and 2 on 2 wins, then
1 and 3) and decrements the counter to 2; after both semifinals complete, a
later invocation builds the single final between the semifinal winners and
decrements the counter to 0; the invocation at the final match's completion
leaves the tournament marked inactive. -/
theorem claim_C1 :
    (∀ t : Tournament,
      (update_tournament t).no_players_for_elimination_rounds =
        t.no_players_for_elimination_rounds ∨
      ((update_tournament t).no_players_for_elimination_rounds + 2 =
        t.no_players_for_elimination_rounds)) ∧
    (∀ t : Tournament,
      (t.games.filter (fun g => g.active)).length ≤ 1 →
      t.round_robin_finished = true →
      t.no_players_for_elimination_rounds = 0 →
      (t.has_elimination = false ∨
        (t.games.filter (fun g => g.elimination_game)).isEmpty = false) →
      (update_tournament t).active = false) ∧
    (most_common ((elimS1.games.take 6).map (fun g => g.winner)) 4 =
        [some 0, some 2, some 1, some 3] ∧
      elimS1.games.length = elimStart.games.length + 2 ∧
      (elimS1.games.drop 6).map
          (fun g => (g.players, g.elimination_game, g.active)) =
        [([some 3, some 0], true, true), ([some 1, some 2], true, true)] ∧
      elimS1.no_players_for_elimination_rounds = 2 ∧ elimS1.active = true ∧
      elimS2.games.length = elimS1.games.length ∧
      elimS3.games.length = elimS2.games.length + 1 ∧
      (elimS3.games.drop 8).map
          (fun g => (g.players, g.elimination_game, g.active)) =
        [([some 1, some 3], true, true)] ∧
      elimS3.no_players_for_elimination_rounds = 0 ∧
      elimS4.active = false) := by
  refine ⟨update_tournament_no_players, update_tournament_marks_inactive, ?_⟩
  decide

/-- C1 witness: the universally quantified clauses applied to the concrete
state `elimS3` (round robin finished, counter 0, one active final). -/
theorem claim_C1_witness :
    ((elimS3.games.filter (fun g => g.active)).length ≤ 1 ∧
     elimS3.round_robin_finished = true ∧
     elimS3.no_players_for_elimination_rounds = 0 ∧
     (elimS3.games.filter (fun g => g.elimination_game)).isEmpty = false ∧
     (update_tournament elimS3).active = false) :=
  ⟨by decide, by decide, by decide, by decide,
    claim_C1.2.1 elimS3 (by decide) (by decide) (by decide)
      (Or.inr (by decide))⟩

lemma round2_ge_100 {x : ℝ} (hx : (100:ℝ) ≤ x) : (100:ℝ) ≤ round2 x := by
  have h := round2_ge (z := 10000) (x := x) (by push_cast; linarith)
  push_cast at h
  linarith

lemma round2_of_eq_int100 {x : ℝ} {z : ℤ} (h : x = (z : ℝ) / 100) :
    round2 x = x := by
  rw [h, round2_intMul]

/-- C3: `elo` computes exactly the spec's expected-score formula and
update rule, and `apply_result(1000, 1000, 32) = (1016.00, 984.00)`. -/
theorem claim_C3 :
    (∀ w l k : ℝ, elo w l k = apply_result_spec w l k) ∧
    elo 1000 1000 32 = (1016, 984) := by
  constructor
  · intro w l k
    rfl
  · have ht : (0:ℝ) < (10:ℝ) ^ ((1000:ℝ) / 400) :=
      Real.rpow_pos_of_pos (by norm_num) _
    unfold elo
    dsimp only
    have hs : (10:ℝ) ^ ((1000:ℝ) / 400) /
        ((10:ℝ) ^ ((1000:ℝ) / 400) + (10:ℝ) ^ ((1000:ℝ) / 400)) = 1 / 2 := by
      field_simp
      ring
    rw [hs]
    have h1 : (1000:ℝ) + 32 * (1 - 1 / 2) = 1016 := by norm_num
    have h2 : (1000:ℝ) - 32 * (1 / 2) = 984 := by norm_num
    rw [h1, h2, if_neg (by norm_num : ¬ (1016:ℝ) < 100),
      if_neg (by norm_num : ¬ (984:ℝ) < 100),
      round2_of_eq_int100 (z := 101600) (by norm_num),
      round2_of_eq_int100 (z := 98400) (by norm_num)]

/-- C7: both components returned by `elo` are at least 100 for all real
inputs, and consequently a ratings database in which every stored rating is
at least 100 still has that property after a rating update. -/
theorem claim_C7 :
    (∀ w l k : ℝ, 100 ≤ (elo w l k).1 ∧ 100 ≤ (elo w l k).2) ∧
    (∀ (K : ℝ) (db : RatingsDb) (g : Game),
      (∀ p, 100 ≤ db.ratings p) →
      ∀ p, 100 ≤ (update_player_rankings K db g).ratings p) := by
  have main : ∀ w l k : ℝ, 100 ≤ (elo w l k).1 ∧ 100 ≤ (elo w l k).2 := by
    intro w l k
    unfold elo
    dsimp only
    constructor
    · apply round2_ge_100
      split
      · exact le_rfl
      · next h => linarith [not_lt.mp h]
    · apply round2_ge_100
      split
      · exact le_rfl
      · next h => linarith [not_lt.mp h]
  refine ⟨main, ?_⟩
  intro K db g hdb p
  unfold update_player_rankings
  split
  · dsimp only
    split_ifs
    · exact (main _ _ _).2
    · exact (main _ _ _).1
    · exact hdb p
    · exact (main _ _ _).2
    · exact (main _ _ _).1
    · exact hdb p
  · exact hdb p

/-- C8 (amended): when the input ratings are exact multiples of 0.01 — as
every stored rating is, being either the default 1000 or a previous
2-decimal output of `elo` — and the weighting is positive, the winner's
rating does not decrease and the loser's rating does not increase unless
the floor clamps it up to 100.  (For arbitrary real ratings the final
2-decimal rounding can pull the winner slightly below the input; see the
counterexample.) -/
theorem claim_C8_amended (w l k : ℝ) (hk : 0 < k)
    (hw : ∃ zw : ℤ, w = (zw : ℝ) / 100) (hl : ∃ zl : ℤ, l = (zl : ℝ) / 100) :
    w ≤ (elo w l k).1 ∧ ((elo w l k).2 ≤ l ∨ (elo w l k).2 = 100) := by
  obtain ⟨zw, hzw⟩ := hw
  obtain ⟨zl, hzl⟩ := hl
  have hwt : (0:ℝ) < (10:ℝ) ^ (w / 400) := Real.rpow_pos_of_pos (by norm_num) _
  have hlt : (0:ℝ) < (10:ℝ) ^ (l / 400) := Real.rpow_pos_of_pos (by norm_num) _
  have hsum : (0:ℝ) < (10:ℝ) ^ (w / 400) + (10:ℝ) ^ (l / 400) := by linarith
  have hws1 : (10:ℝ) ^ (w / 400) /
      ((10:ℝ) ^ (w / 400) + (10:ℝ) ^ (l / 400)) < 1 :=
    (div_lt_one hsum).mpr (by linarith)
  have hls0 : 0 < (10:ℝ) ^ (l / 400) /
      ((10:ℝ) ^ (w / 400) + (10:ℝ) ^ (l / 400)) := div_pos hlt hsum
  unfold elo
  dsimp only
  constructor
  · have hraw : w ≤ w + k * (1 - (10:ℝ) ^ (w / 400) /
        ((10:ℝ) ^ (w / 400) + (10:ℝ) ^ (l / 400))) := by nlinarith
    have hcl : w ≤ (if w + k * (1 - (10:ℝ) ^ (w / 400) /
        ((10:ℝ) ^ (w / 400) + (10:ℝ) ^ (l / 400))) < 100 then (100:ℝ)
      else w + k * (1 - (10:ℝ) ^ (w / 400) /
        ((10:ℝ) ^ (w / 400) + (10:ℝ) ^ (l / 400)))) := by
      split
      · next h => linarith
      · exact hraw
    calc w = (zw : ℝ) / 100 := hzw
    _ ≤ _ := round2_ge (by rw [← hzw]; exact hcl)
  · by_cases hc : l - k * ((10:ℝ) ^ (l / 400) /
        ((10:ℝ) ^ (w / 400) + (10:ℝ) ^ (l / 400))) < 100
    · right
      rw [if_pos hc]
      have : (100:ℝ) = ((10000 : ℤ) : ℝ) / 100 := by norm_num
      rw [this, round2_intMul]
    · left
      rw [if_neg hc]
      have hraw : l - k * ((10:ℝ) ^ (l / 400) /
          ((10:ℝ) ^ (w / 400) + (10:ℝ) ^ (l / 400))) ≤ (zl : ℝ) / 100 := by
        rw [← hzl]; nlinarith
      calc round2 _ ≤ (zl : ℝ) / 100 := round2_le hraw
      _ = l := hzl.symm

/-- C8 counterexample: with ratings 500.004 and 100.004 (400 apart, so the
winner's expected score is exactly 10/11) and weighting 0.01 > 0, the
winner's raw gain 1/1100 is wiped out by the 2-decimal rounding and the
returned winner rating 500.00 is strictly below the input 500.004. -/
theorem claim_C8_counterexample :
    (0:ℝ) < 1 / 100 ∧ (elo 500.004 100.004 (1 / 100)).1 < 500.004 := by
  refine ⟨by norm_num, ?_⟩
  have hab : (500.004:ℝ) / 400 = (100.004:ℝ) / 400 + 1 := by norm_num
  have hlt : (0:ℝ) < (10:ℝ) ^ ((100.004:ℝ) / 400) :=
    Real.rpow_pos_of_pos (by norm_num) _
  have hw10 : (10:ℝ) ^ ((500.004:ℝ) / 400) =
      10 * (10:ℝ) ^ ((100.004:ℝ) / 400) := by
    rw [hab, Real.rpow_add (by norm_num), Real.rpow_one]
    ring
  unfold elo
  dsimp only
  rw [hw10]
  have hs : 10 * (10:ℝ) ^ ((100.004:ℝ) / 400) /
      (10 * (10:ℝ) ^ ((100.004:ℝ) / 400) + (10:ℝ) ^ ((100.004:ℝ) / 400)) =
      10 / 11 := by
    rw [div_eq_div_iff (by linarith) (by norm_num)]
    ring
  rw [hs]
  have h1 : (500.004:ℝ) + 1 / 100 * (1 - 10 / 11) = 500.004 + 1 / 1100 := by
    norm_num
  rw [h1, if_neg (by norm_num : ¬ (500.004:ℝ) + 1 / 1100 < 100)]
  have hy : ((500.004:ℝ) + 1 / 1100) * 100 = 50000.4 + 1 / 11 := by norm_num
  have hfl : ⌊(50000.4 : ℝ) + 1 / 11⌋ = 50000 := by
    rw [Int.floor_eq_iff]
    constructor <;> push_cast <;> norm_num
  have hround : roundHalfEven ((50000.4 : ℝ) + 1 / 11) = 50000 := by
    unfold roundHalfEven
    rw [hfl, if_pos]
    push_cast
    norm_num
  unfold round2
  rw [hy, hround]
  norm_num

/-- C7 witness: the preservation clause applied to the fresh database
(all ratings 1000) and the completed game `finishedGame`. -/
theorem claim_C7_witness :
    (∀ p, (100:ℝ) ≤ freshDb.ratings p) ∧
    (100:ℝ) ≤ (update_player_rankings 32 freshDb finishedGame).ratings 1 :=
  ⟨fun _ => by norm_num [freshDb],
    claim_C7.2 32 freshDb finishedGame (fun _ => by norm_num [freshDb]) 1⟩

/-- C8 witness: the amended statement applied to ratings 1000, 1000 and
weighting 32. -/
theorem claim_C8_witness :
    ((0:ℝ) < 32 ∧ (∃ zw : ℤ, (1000:ℝ) = (zw : ℝ) / 100) ∧
      (∃ zl : ℤ, (1000:ℝ) = (zl : ℝ) / 100)) ∧
    ((1000:ℝ) ≤ (elo 1000 1000 32).1 ∧
      ((elo 1000 1000 32).2 ≤ 1000 ∨ (elo 1000 1000 32).2 = 100)) :=
  ⟨⟨by norm_num, ⟨100000, by norm_num⟩, ⟨100000, by norm_num⟩⟩,
    claim_C8_amended 1000 1000 32 (by norm_num) ⟨100000, by norm_num⟩
      ⟨100000, by norm_num⟩⟩

/-! ## Round-robin completeness (claim C4)

The rotation `insert(1, pop())` fixes the head of the player list and
cyclically shifts the other `N = n - 1` positions, so the canonical list
for an even player count `n = 2 * m` is indexed by `Option (ZMod N)`:
`none` for the fixed head, `some c` for the player starting at position
`c + 1`.  After `i` rotations the slot `t` holds player `t - i`. -/

def canonTail (N i : ℕ) : List (Option (ZMod N)) :=
  (List.range N).map (fun t : ℕ => some ((t : ZMod N) - (i : ZMod N)))

def canon (N i : ℕ) : List (Option (ZMod N)) := none :: canonTail N i

lemma length_canon (N i : ℕ) : (canon N i).length = N + 1 := by
  simp [canon, canonTail]

lemma rotateOnce_canon {N : ℕ} (hN : 1 ≤ N) (i : ℕ) :
    rotateOnce (canon N i) = canon N (i + 1) := by
  obtain ⟨M, rfl⟩ : ∃ M, N = M + 1 := ⟨N - 1, by omega⟩
  have hM : ((M : ℕ) : ZMod (M + 1)) = -1 := by
    have h0 : (((M : ℕ) : ZMod (M + 1)) + 1) = 0 := by
      exact_mod_cast ZMod.natCast_self (M + 1)
    linear_combination h0
  have hsplit : canon (M + 1) i =
      (none :: (List.range M).map
        (fun t : ℕ => some ((t : ZMod (M + 1)) - (i : ZMod (M + 1))))) ++
      [some (((M : ℕ) : ZMod (M + 1)) - (i : ZMod (M + 1)))] := by
    simp [canon, canonTail, List.range_succ]
  have htail : canonTail (M + 1) (i + 1) =
      some (((M : ℕ) : ZMod (M + 1)) - (i : ZMod (M + 1))) ::
        (List.range M).map
          (fun t : ℕ => some ((t : ZMod (M + 1)) - (i : ZMod (M + 1)))) := by
    unfold canonTail
    rw [List.range_succ_eq_map, List.map_cons, List.map_map]
    congr 1
    · congr 1
      rw [hM]
      push_cast
      ring
    · refine List.map_congr_left (fun t _ => ?_)
      simp only [Function.comp]
      congr 1
      push_cast
      ring
  rw [hsplit, rotateOnce_concat]
  rw [canon, htail]
  simp

def pairAt (N i : ℕ) (k : ℕ) : Sym2 (Option (ZMod N)) :=
  if k = 0 then s(none, some (-1 - (i : ZMod N)))
  else s(some ((k : ZMod N) - 1 - (i : ZMod N)),
         some (-1 - (k : ZMod N) - (i : ZMod N)))

def roundSym (N m i : ℕ) : List (Sym2 (Option (ZMod N))) :=
  (List.range m).map (pairAt N i)

lemma canon_take {N m m' : ℕ} (hN : N + 1 = 2 * m) (hm : m = m' + 1)
    (i : ℕ) :
    (canon N i).take m =
      none :: (List.range m').map
        (fun t : ℕ => some ((t : ZMod N) - (i : ZMod N))) := by
  subst hm
  rw [canon, List.take_succ_cons]
  congr 1
  unfold canonTail
  rw [← List.map_take, List.take_range]
  congr 2
  omega

lemma canon_drop_rev {N m m' : ℕ} (hN : N + 1 = 2 * m) (hm : m = m' + 1)
    (i : ℕ) :
    ((canon N i).drop m).reverse =
      (List.range m).map
        (fun k : ℕ => some (((N - 1 - k : ℕ) : ZMod N) - (i : ZMod N))) := by
  subst hm
  rw [canon, List.drop_succ_cons]
  unfold canonTail
  rw [← List.map_drop]
  have hsplit : List.range N = List.range' 0 m' ++ List.range' m' (m' + 1) := by
    rw [List.range_eq_range']
    have h := List.range'_append 0 m' (m' + 1) 1
    simp only [Nat.one_mul, Nat.zero_add] at h
    rw [h]
    congr 1
    omega
  rw [hsplit]
  have hlen : (List.range' 0 m' 1).length = m' := List.length_range' _ _ _
  rw [List.drop_left' hlen, ← List.map_reverse, List.reverse_range',
    List.map_map]
  refine List.map_congr_left (fun k hk => ?_)
  simp only [Function.comp]
  congr 3
  omega

lemma cast_N_sub {N a : ℕ} (ha : a ≤ N) :
    ((N - a : ℕ) : ZMod N) = -(a : ZMod N) := by
  have h : ((N - a : ℕ) : ZMod N) + (a : ZMod N) = 0 := by
    rw [← Nat.cast_add]
    rw [(by omega : N - a + a = N)]
    exact ZMod.natCast_self N
  linear_combination h

lemma roundPairs_canon {N m m' : ℕ} (hN : N + 1 = 2 * m) (hm : m = m' + 1)
    (i : ℕ) :
    (roundPairs i (canon N i)).map Sym2.mk = roundSym N m i := by
  have hmid : (canon N i).length / 2 = m := by rw [length_canon]; omega
  have hfh := canon_take hN hm i
  have hsh := canon_drop_rev hN hm i
  have hshsplit : (List.range m).map
      (fun k : ℕ => some (((N - 1 - k : ℕ) : ZMod N) - (i : ZMod N))) =
      some (((N - 1 : ℕ) : ZMod N) - (i : ZMod N)) ::
        (List.range m').map
          (fun k : ℕ => some (((N - 2 - k : ℕ) : ZMod N) - (i : ZMod N))) := by
    rw [hm, List.range_succ_eq_map, List.map_cons, List.map_map]
    refine congrArg₂ List.cons (by simp) ?_
    refine List.map_congr_left (fun k hk => ?_)
    simp only [Function.comp]
    congr 3
    omega
  have hhead : s(none, some (((N - 1 : ℕ) : ZMod N) - (i : ZMod N))) =
      pairAt N i 0 := by
    rw [pairAt, if_pos rfl, cast_N_sub (by omega)]
    norm_num
  have htail : ∀ k ∈ List.range m',
      s(some ((k : ZMod N) - (i : ZMod N)),
        some (((N - 2 - k : ℕ) : ZMod N) - (i : ZMod N))) =
      pairAt N i (k + 1) := by
    intro k hk
    have hk' : k < m' := List.mem_range.mp hk
    have hc2 : ((N - 2 - k : ℕ) : ZMod N) = -2 - (k : ZMod N) := by
      have h1 : N - 2 - k = N - (2 + k) := by omega
      rw [h1, cast_N_sub (by omega)]
      push_cast
      ring
    rw [pairAt, if_neg (Nat.succ_ne_zero k), hc2, Sym2.eq_iff]
    left
    constructor
    · congr 1
      push_cast
      ring
    · congr 1
      push_cast
      ring
  unfold roundPairs
  dsimp only
  rw [hmid, hfh, hsh, hshsplit, roundSym]
  rw [hm, List.range_succ_eq_map, List.map_cons, List.map_map]
  by_cases hpar : i % 2 = 1
  · rw [if_pos hpar, List.zip_cons_cons, List.zip_map', List.map_cons,
      List.map_map]
    refine congrArg₂ List.cons hhead ?_
    refine List.map_congr_left (fun k hk => ?_)
    simp only [Function.comp]
    rw [(by simp : Nat.succ k = k + 1)]
    exact htail k hk
  · rw [if_neg hpar, List.zip_cons_cons, List.zip_map', List.map_cons,
      List.map_map]
    refine congrArg₂ List.cons (Sym2.eq_swap.trans hhead) ?_
    refine List.map_congr_left (fun k hk => ?_)
    simp only [Function.comp]
    rw [(by simp : Nat.succ k = k + 1), Sym2.eq_swap]
    exact htail k hk

lemma schedFrom_canon {N m m' : ℕ} (hN : N + 1 = 2 * m) (hm : m = m' + 1) :
    ∀ (r i : ℕ), (schedFrom i (canon N i) r).map Sym2.mk =
      ((List.range' i r).map (roundSym N m)).flatten := by
  intro r
  induction r with
  | zero => intro i; simp [schedFrom]
  | succ r ih =>
    intro i
    rw [schedFrom, List.map_append, roundPairs_canon hN hm i,
      rotateOnce_canon (by omega) i, ih (i + 1), List.range'_succ,
      List.map_cons, List.flatten_cons]

lemma natCast_inj_lt {N a b : ℕ} (ha : a < N) (hb : b < N)
    (h : (a : ZMod N) = (b : ZMod N)) : a = b := by
  haveI : NeZero N := ⟨by omega⟩
  have hv := congrArg ZMod.val h
  rwa [ZMod.val_cast_of_lt ha, ZMod.val_cast_of_lt hb] at hv

lemma natCast_add_ne_zero {N a b : ℕ} (h1 : 1 ≤ a + b) (h2 : a + b ≤ N - 1) :
    (a : ZMod N) + (b : ZMod N) ≠ 0 := by
  intro h
  rw [← Nat.cast_add, ZMod.natCast_zmod_eq_zero_iff_dvd] at h
  have := Nat.le_of_dvd (by omega) h
  omega

lemma two_mul_m_cast {N m : ℕ} (hN : N + 1 = 2 * m) :
    (2 : ZMod N) * (m : ZMod N) = 1 := by
  have h : ((2 * m : ℕ) : ZMod N) = ((N + 1 : ℕ) : ZMod N) := by rw [hN]
  push_cast at h
  rw [ZMod.natCast_self] at h
  simpa using h

lemma two_mul_cast_inj {N m i i' : ℕ} (hN : N + 1 = 2 * m) (hi : i < N)
    (hi' : i' < N) (h : 2 * (i : ZMod N) = 2 * (i' : ZMod N)) : i = i' := by
  refine natCast_inj_lt hi hi' ?_
  have h2m := two_mul_m_cast hN
  calc (i : ZMod N) = ((2 : ZMod N) * m) * i := by rw [h2m]; ring
  _ = (m : ZMod N) * (2 * i) := by ring
  _ = (m : ZMod N) * (2 * i') := by rw [h]
  _ = ((2 : ZMod N) * m) * i' := by ring
  _ = (i' : ZMod N) := by rw [h2m]; ring

lemma pairAt_inj {N m i i' k k' : ℕ} (hN : N + 1 = 2 * m)
    (hi : i < N) (hi' : i' < N) (hk : k < m) (hk' : k' < m)
    (h : pairAt N i k = pairAt N i' k') : i = i' ∧ k = k' := by
  have hmN : m ≤ N := by omega
  unfold pairAt at h
  by_cases h0 : k = 0 <;> by_cases h0' : k' = 0
  · subst h0; subst h0'
    rw [if_pos rfl, if_pos rfl, Sym2.eq_iff] at h
    rcases h with ⟨-, h2⟩ | ⟨h1, -⟩
    · have hii : (i : ZMod N) = (i' : ZMod N) := by
        have := Option.some.inj h2
        linear_combination -this
      exact ⟨natCast_inj_lt hi hi' hii, rfl⟩
    · exact absurd h1 (by simp)
  · rw [if_pos h0, if_neg h0', Sym2.eq_iff] at h
    rcases h with ⟨h1, -⟩ | ⟨h1, -⟩ <;> exact absurd h1 (by simp)
  · rw [if_neg h0, if_pos h0', Sym2.eq_iff] at h
    rcases h with ⟨h1, -⟩ | ⟨-, h2⟩
    · exact absurd h1 (by simp)
    · exact absurd h2 (by simp)
  · rw [if_neg h0, if_neg h0', Sym2.eq_iff] at h
    rcases h with ⟨h1, h2⟩ | ⟨h1, h2⟩
    · have e1 := Option.some.inj h1
      have e2 := Option.some.inj h2
      have hkk : k = k' := by
        refine two_mul_cast_inj hN (by omega) (by omega) ?_
        linear_combination e1 - e2
      subst hkk
      have hii : (i : ZMod N) = (i' : ZMod N) := by linear_combination -e1
      exact ⟨natCast_inj_lt hi hi' hii, rfl⟩
    · have e1 := Option.some.inj h1
      have e2 := Option.some.inj h2
      have hii : i = i' := by
        refine two_mul_cast_inj hN hi hi' ?_
        linear_combination -e1 - e2
      subst hii
      exfalso
      refine natCast_add_ne_zero (N := N) (a := k) (b := k')
        (by omega) (by omega) ?_
      linear_combination e1

lemma scheduleSym_nodup {N m : ℕ} (hN : N + 1 = 2 * m) :
    (((List.range N).map (roundSym N m)).flatten).Nodup := by
  rw [List.nodup_flatten]
  constructor
  · intro L hL
    obtain ⟨i, hi, rfl⟩ := List.mem_map.mp hL
    have hiN := List.mem_range.mp hi
    refine List.Nodup.map_on ?_ (List.nodup_range m)
    intro k hk k' hk' he
    exact (pairAt_inj hN hiN hiN (List.mem_range.mp hk)
      (List.mem_range.mp hk') he).2
  · rw [List.pairwise_map]
    refine (List.pairwise_lt_range N).imp_of_mem ?_
    intro i i' hi hi' hlt e he he'
    obtain ⟨k, hk, hke⟩ := List.mem_map.mp he
    obtain ⟨k', hk', hke'⟩ := List.mem_map.mp he'
    have := (pairAt_inj hN (List.mem_range.mp hi) (List.mem_range.mp hi')
      (List.mem_range.mp hk) (List.mem_range.mp hk')
      (hke.trans hke'.symm)).1
    omega

lemma pair_mem_scheduleSym {N m m' : ℕ} (hN : N + 1 = 2 * m)
    (hm : m = m' + 1) (x y : Option (ZMod N)) (hxy : x ≠ y) :
    s(x, y) ∈ ((List.range N).map (roundSym N m)).flatten := by
  haveI : NeZero N := ⟨by omega⟩
  rw [List.mem_flatten]
  have hmem : ∀ (i k : ℕ), i < N → k < m → pairAt N i k = s(x, y) →
      ∃ L ∈ (List.range N).map (roundSym N m), s(x, y) ∈ L := by
    intro i k hi hk he
    exact ⟨roundSym N m i, List.mem_map.mpr ⟨i, List.mem_range.mpr hi, rfl⟩,
      List.mem_map.mpr ⟨k, List.mem_range.mpr hk, he⟩⟩
  have hnone : ∀ c : ZMod N, pairAt N ((-1 - c : ZMod N)).val 0 =
      s(none, some c) := by
    intro c
    rw [pairAt, if_pos rfl]
    have hc : ((((-1 - c : ZMod N)).val : ℕ) : ZMod N) = -1 - c :=
      ZMod.natCast_rightInverse _
    rw [hc]
    congr 2
    ring
  cases x with
  | none =>
    cases y with
    | none => exact absurd rfl hxy
    | some c =>
      exact hmem _ 0 (ZMod.val_lt _) (by omega) (hnone c)
  | some a =>
    cases y with
    | none =>
      refine hmem ((-1 - a : ZMod N)).val 0 (ZMod.val_lt _) (by omega) ?_
      rw [hnone a, Sym2.eq_swap]
    | some b =>
      have hab : a ≠ b := fun hh => hxy (by rw [hh])
      have h2m := two_mul_m_cast hN
      set j0 : ZMod N := (m : ZMod N) * (-2 - a - b) with hj0
      have h2j0 : 2 * j0 = -2 - a - b := by
        rw [hj0]
        calc 2 * ((m : ZMod N) * (-2 - a - b)) =
            ((2 : ZMod N) * m) * (-2 - a - b) := by ring
        _ = -2 - a - b := by rw [h2m]; ring
      have hsum0 : (a + 1 + j0) + (b + 1 + j0) = 0 := by
        linear_combination h2j0
      have hicast : ((j0.val : ℕ) : ZMod N) = j0 :=
        ZMod.natCast_rightInverse _
      set t := (a + 1 + j0).val with ht
      have htN : t < N := ZMod.val_lt _
      have htcast : ((t : ℕ) : ZMod N) = a + 1 + j0 :=
        ZMod.natCast_rightInverse _
      have ht0 : t ≠ 0 := by
        intro h0
        have hz : ((t : ℕ) : ZMod N) = 0 := by rw [h0]; simp
        rw [htcast] at hz
        have hb0 : b + 1 + j0 = 0 := by linear_combination hsum0 - hz
        exact hab (by linear_combination hz - hb0)
      by_cases hcase : t ≤ m - 1
      · refine hmem j0.val t (ZMod.val_lt _) (by omega) ?_
        rw [pairAt, if_neg ht0, hicast, htcast, Sym2.eq_iff]
        left
        constructor
        · congr 1
          ring
        · congr 1
          linear_combination -hsum0
      · refine hmem j0.val (N - t) (ZMod.val_lt _) (by omega) ?_
        have hkcast : ((N - t : ℕ) : ZMod N) = b + 1 + j0 := by
          rw [cast_N_sub (le_of_lt htN), htcast]
          linear_combination -hsum0
        rw [pairAt, if_neg (by omega : ¬ N - t = 0), hicast, hkcast,
          Sym2.eq_iff]
        right
        constructor
        · congr 1
          ring
        · congr 1
          linear_combination -hsum0

lemma count_canonical {N m m' : ℕ} (hN : N + 1 = 2 * m) (hm : m = m' + 1)
    (x y : Option (ZMod N)) (hxy : x ≠ y) :
    ((generate_tournament_schedule (canon N 0) N).map Sym2.mk).count
      s(x, y) = 1 := by
  rw [generate_tournament_schedule, schedFrom_canon hN hm N 0,
    ← List.range_eq_range']
  have hnd := scheduleSym_nodup hN
  have hmm := pair_mem_scheduleSym hN hm x y hxy
  have h1 : 0 < (((List.range N).map (roundSym N m)).flatten).count s(x, y) :=
    List.count_pos_iff.mpr hmm
  have h2 := List.nodup_iff_count_le_one.mp hnd s(x, y)
  omega

/-- Decides whether the ordered pair `p` is the unordered pair `{x, y}`. -/
def isPair {α : Type _} [DecidableEq α] (x y : α) (p : α × α) : Bool :=
  decide ((p.1 = x ∧ p.2 = y) ∨ (p.1 = y ∧ p.2 = x))

lemma countP_isPair_eq {α : Type _} [DecidableEq α] (x y : α)
    (L : List (α × α)) :
    L.countP (isPair x y) = (L.map Sym2.mk).count s(x, y) := by
  rw [List.count_eq_countP, List.countP_map]
  refine List.countP_congr ?_
  rintro ⟨a, b⟩ -
  simp [isPair, Function.comp, Sym2.eq_iff]

lemma rotateOnce_map {α β : Type _} (f : α → β) (l : List α) :
    rotateOnce (l.map f) = (rotateOnce l).map f := by
  induction l using List.reverseRecOn with
  | nil => rfl
  | append_singleton l b _ =>
    rw [List.map_append, List.map_singleton, rotateOnce_concat,
      rotateOnce_concat, List.map_append, List.map_cons, List.map_take,
      List.map_drop]

lemma roundPairs_map {α β : Type _} (f : α → β) (i : ℕ) (l : List α) :
    roundPairs i (l.map f) = (roundPairs i l).map (Prod.map f f) := by
  unfold roundPairs
  dsimp only
  rw [List.length_map]
  split_ifs
  · rw [← List.map_take, ← List.map_drop, ← List.map_reverse, List.zip_map]
  · rw [← List.map_take, ← List.map_drop, ← List.map_reverse, List.zip_map]

lemma schedFrom_map {α β : Type _} (f : α → β) :
    ∀ (r i : ℕ) (l : List α),
      schedFrom i (l.map f) r = (schedFrom i l r).map (Prod.map f f) := by
  intro r
  induction r with
  | zero => intro i l; rfl
  | succ r ih =>
    intro i l
    rw [schedFrom, schedFrom, List.map_append, roundPairs_map,
      rotateOnce_map, ih]

/-- C4: for every even-length duplicate-free participant list, the
schedule over `n - 1` rounds has `n * (n - 1) / 2` pairs and every
unordered pair of distinct participants occurs in it exactly once. -/
theorem claim_C4 {α : Type} [DecidableEq α] (l : List α) (hnd : l.Nodup)
    (hev : l.length % 2 = 0) :
    (generate_tournament_schedule l (l.length - 1)).length =
      l.length * (l.length - 1) / 2 ∧
    (∀ x ∈ l, ∀ y ∈ l, x ≠ y →
      (generate_tournament_schedule l (l.length - 1)).countP (isPair x y)
        = 1) := by
  constructor
  · rw [length_generate]
    obtain ⟨c, hc⟩ : ∃ c, l.length = 2 * c := ⟨l.length / 2, by omega⟩
    rw [hc, (by omega : 2 * c / 2 = c)]
    generalize 2 * c - 1 = d
    rw [(by ring : 2 * c * d = 2 * (d * c)),
      Nat.mul_div_cancel_left _ (by norm_num)]
  · intro x hx y hy hxy
    have hpos : 0 < l.length := List.length_pos.mpr (List.ne_nil_of_mem hx)
    have hn2 : 2 ≤ l.length := by omega
    set N := l.length - 1 with hNdef
    set m := l.length / 2 with hmdef
    have hN : N + 1 = 2 * m := by omega
    have hm : m = (m - 1) + 1 := by omega
    haveI : NeZero N := ⟨by omega⟩
    have hvlt : ∀ c : ZMod N, c.val + 1 < l.length := by
      intro c
      have := ZMod.val_lt c
      omega
    let g : Option (ZMod N) → α := fun o =>
      match o with
      | none => l.get ⟨0, hpos⟩
      | some c => l.get ⟨c.val + 1, hvlt c⟩
    have hmap : (canon N 0).map g = l := by
      refine List.ext_get ?_ ?_
      · rw [List.length_map, length_canon]
        omega
      · intro j h1 h2
        rw [List.length_map, length_canon] at h1
        match j with
        | 0 => rfl
        | j + 1 =>
          have hjN : j < N := by omega
          have hget : (canon N 0).get ⟨j + 1, by rw [length_canon]; omega⟩ =
              some ((j : ZMod N) - (0 : ℕ)) := by
            simp [canon, canonTail]
          rw [List.get_map]
          have : ((canon N 0).get ⟨j + 1, by rw [length_canon]; omega⟩) =
              some ((j : ZMod N) - (0 : ℕ)) := hget
          rw [this]
          show l.get ⟨(((j : ZMod N) - (0 : ℕ))).val + 1, _⟩ = _
          congr 1
          apply Fin.ext
          simp [ZMod.val_cast_of_lt hjN]
    have hginj : Function.Injective g := by
      intro o o' he
      match o, o' with
      | none, none => rfl
      | none, some c =>
        exfalso
        have h := (List.Nodup.get_inj_iff hnd).mp he
        simp at h
      | some c, none =>
        exfalso
        have h := (List.Nodup.get_inj_iff hnd).mp he
        simp at h
      | some c, some c' =>
        have h := (List.Nodup.get_inj_iff hnd).mp he
        simp only [Fin.mk.injEq, Nat.add_right_cancel_iff] at h
        exact congrArg some (ZMod.val_injective N h)
    have hx' : x ∈ (canon N 0).map g := by rw [hmap]; exact hx
    have hy' : y ∈ (canon N 0).map g := by rw [hmap]; exact hy
    obtain ⟨ux, hux, hgux⟩ := List.mem_map.mp hx'
    obtain ⟨uy, huy, hguy⟩ := List.mem_map.mp hy'
    have huxy : ux ≠ uy := by
      intro h
      exact hxy (by rw [← hgux, ← hguy, h])
    have hstep1 : generate_tournament_schedule l N =
        (generate_tournament_schedule (canon N 0) N).map (Prod.map g g) := by
      rw [← hmap]
      exact schedFrom_map g N 0 (canon N 0)
    rw [hstep1, List.countP_map]
    have hpt : ∀ p ∈ generate_tournament_schedule (canon N 0) N,
        (isPair x y ∘ Prod.map g g) p = true ↔ isPair ux uy p = true := by
      rintro ⟨a, b⟩ -
      simp only [isPair, Function.comp, Prod.map, decide_eq_true_eq,
        ← hgux, ← hguy, hginj.eq_iff]
    rw [List.countP_congr hpt, countP_isPair_eq,
      count_canonical hN hm ux uy huxy]

/-- C4 witness: the completeness statement applied to `[0, 1, 2, 3]` and
the pair `{0, 2}`. -/
theorem claim_C4_witness :
    (([0, 1, 2, 3] : List ℕ).Nodup ∧
      ([0, 1, 2, 3] : List ℕ).length % 2 = 0 ∧
      (0 : ℕ) ∈ ([0, 1, 2, 3] : List ℕ) ∧
      (2 : ℕ) ∈ ([0, 1, 2, 3] : List ℕ) ∧ (0 : ℕ) ≠ 2) ∧
    (generate_tournament_schedule ([0, 1, 2, 3] : List ℕ)
        (([0, 1, 2, 3] : List ℕ).length - 1)).countP (isPair 0 2) = 1 :=
  ⟨⟨by decide, by decide, by decide, by decide, by decide⟩,
    (claim_C4 ([0, 1, 2, 3] : List ℕ) (by decide) (by decide)).2
      0 (by decide) 2 (by decide) (by decide)⟩

